import Mathlib

/-!
Verification of the asynchronous GraphQL execution engine (juniper).

Shallow embedding of:
  - the `Value` result model and its scalar-representation conversion and
    text rendering (`src/juniper/src/value/mod.rs`);
  - the selection-set resolution algorithm
    (`src/juniper/src/types/async_await.rs`,
    `resolve_selection_set_into_async_recursive`);
  - the macro-generated interface instance resolution
    (`src/juniper/src/macros/interface.rs`, `concrete_type_name` and
    `resolve_into_type`);
  - the ownership-delegating wrapper implementations
    (`src/juniper/src/types/pointers.rs`).

Rust machinery that does not translate directly is made explicit:
panicking code paths return `Except Fatal`, the mutable error sink is
threaded as an explicit list, and the unbounded recursion through the
fragment table is bounded by an explicit fuel parameter.
-/

namespace Juniper

/-- The `Value` enum from `value/mod.rs`: the serializable result tree.
`Null`, `Scalar(S)`, `List(Vec<Value<S>>)`, `Object(Object<S>)`; the
`Object` type (an insertion-order-preserving list of key/value pairs,
from `value/object.rs`) is represented by its underlying ordered list. -/
inductive Value (S : Type) : Type where
  | null : Value S
  | scalar : S → Value S
  | list : List (Value S) → Value S
  | object : List (String × Value S) → Value S
deriving Repr

/-- An ordered response object: insertion-order-preserving key/value list. -/
abbrev Obj (S : Type) := List (String × Value S)

/-- The `Value::is_null` discriminator. -/
def Value.isNull {S : Type} : Value S → Bool
  | .null => true
  | _ => false

mutual

/-- The structural branch of `Value::map_scalar_value` from `value/mod.rs`:
`Null` maps to `Null`, a scalar leaf maps through the target
representation's conversion function (`into_another`, modelled by the
total function `conv`), lists and objects are walked structurally.
The Rust function short-circuits through a transmute when the source and
target representations are the same `TypeId`; that branch is the identity
and is related to this walk by `mapScalarValue_id` below. -/
def Value.mapScalarValue {S T : Type} (conv : S → T) : Value S → Value T
  | .null => .null
  | .scalar s => .scalar (conv s)
  | .list l => .list (mapScalarList conv l)
  | .object o => .object (mapScalarObj conv o)

/-- Elementwise conversion of a list of values (the `l.into_iter().map(...)`
of `map_scalar_value`). -/
def mapScalarList {S T : Type} (conv : S → T) : List (Value S) → List (Value T)
  | [] => []
  | v :: vs => Value.mapScalarValue conv v :: mapScalarList conv vs

/-- Pairwise conversion of an object's fields (the `o.into_iter().map(...)`
of `map_scalar_value`): keys are kept, values are converted. -/
def mapScalarObj {S T : Type} (conv : S → T) :
    List (String × Value S) → List (String × Value T)
  | [] => []
  | (k, v) :: rest => (k, Value.mapScalarValue conv v) :: mapScalarObj conv rest

end

/-- How a scalar representation renders: `as_string` (returns the string
payload when the scalar holds a string) and its own `Display` rendering. -/
structure ScalarRender (S : Type) where
  asString : S → Option String
  render : S → String

mutual

/-- The `Display` implementation for `Value` from `value/mod.rs`:
null renders as the word `null`; a scalar holding a string renders in
double quotes, any other scalar through its own rendering; a list renders
between square brackets with the loop writing `", "` after every element
whose index is below `len - 1`; an object renders between curly braces
with `"key": value` pairs separated the same way. -/
def Value.display {S : Type} (R : ScalarRender S) : Value S → String
  | .null => "null"
  | .scalar s =>
      match R.asString s with
      | some str => "\"" ++ str ++ "\""
      | none => R.render s
  | .list l => "[" ++ displayItems R l.length 0 l ++ "]"
  | .object o => "\x7b" ++ displayFields R o.length 0 o ++ "\x7d"

/-- The list-rendering loop of the `Display` implementation: writes each
item followed by `", "` whenever its index is below `n - 1`. -/
def displayItems {S : Type} (R : ScalarRender S) (n idx : Nat) :
    List (Value S) → String
  | [] => ""
  | v :: rest =>
      Value.display R v ++ (if idx < n - 1 then ", " else "")
        ++ displayItems R n (idx + 1) rest

/-- The object-rendering loop of the `Display` implementation: writes each
`"key": value` pair followed by `", "` whenever its index is below
`n - 1` (`n` being `obj.field_count()`). -/
def displayFields {S : Type} (R : ScalarRender S) (n idx : Nat) :
    List (String × Value S) → String
  | [] => ""
  | (k, v) :: rest =>
      "\"" ++ k ++ "\": " ++ Value.display R v
        ++ (if idx < n - 1 then ", " else "")
        ++ displayFields R n (idx + 1) rest

end

/-- Joining a list of rendered parts with the separator `", "` between
consecutive parts: the specification-level description of the rendering
loops. -/
def joinComma : List String → String
  | [] => ""
  | [x] => x
  | x :: xs => x ++ ", " ++ joinComma xs

mutual

theorem mapScalarValue_id {S : Type} : ∀ v : Value S, Value.mapScalarValue id v = v
  | .null => by rw [Value.mapScalarValue]
  | .scalar s => by rw [Value.mapScalarValue]; rfl
  | .list l => by rw [Value.mapScalarValue, mapScalarList_id]
  | .object o => by rw [Value.mapScalarValue, mapScalarObj_id]

theorem mapScalarList_id {S : Type} : ∀ l : List (Value S), mapScalarList id l = l
  | [] => by rw [mapScalarList]
  | v :: vs => by rw [mapScalarList, mapScalarValue_id, mapScalarList_id]

theorem mapScalarObj_id {S : Type} :
    ∀ o : List (String × Value S), mapScalarObj id o = o
  | [] => by rw [mapScalarObj]
  | (k, v) :: rest => by rw [mapScalarObj, mapScalarValue_id, mapScalarObj_id]

end

theorem mapScalarList_eq_map {S T : Type} (conv : S → T) :
    ∀ l : List (Value S), mapScalarList conv l = l.map (Value.mapScalarValue conv)
  | [] => by rw [mapScalarList]; rfl
  | v :: vs => by rw [mapScalarList, mapScalarList_eq_map]; rfl

theorem mapScalarObj_eq_map {S T : Type} (conv : S → T) :
    ∀ o : List (String × Value S),
      mapScalarObj conv o = o.map (fun kv => (kv.1, Value.mapScalarValue conv kv.2))
  | [] => by rw [mapScalarObj]; rfl
  | (k, v) :: rest => by rw [mapScalarObj, mapScalarObj_eq_map]; rfl

/-- C2: converting a `Value` tree into an identical scalar representation is
the identity (the structural walk with the identity conversion returns the
tree unchanged, which is what the transmuting shortcut of
`map_scalar_value` produces), and converting into a different
representation is total (the Lean embedding returns a plain `Value T`,
never an error) and structure-preserving: `Null` maps to `Null`, a scalar
leaf maps through the conversion function, lists keep their length and
element order, and objects keep their keys in declaration order. -/
theorem map_scalar_value_spec {S T : Type} (conv : S → T) :
    (∀ v : Value S, Value.mapScalarValue id v = v)
    ∧ (Value.mapScalarValue conv (Value.null (S := S)) = Value.null)
    ∧ (∀ s : S, Value.mapScalarValue conv (Value.scalar s) = Value.scalar (conv s))
    ∧ (∀ l : List (Value S),
        Value.mapScalarValue conv (Value.list l)
          = Value.list (l.map (Value.mapScalarValue conv))
        ∧ (mapScalarList conv l).length = l.length)
    ∧ (∀ o : List (String × Value S),
        Value.mapScalarValue conv (Value.object o)
          = Value.object (o.map fun kv => (kv.1, Value.mapScalarValue conv kv.2))
        ∧ (mapScalarObj conv o).map Prod.fst = o.map Prod.fst) := by
  refine ⟨mapScalarValue_id, by rw [Value.mapScalarValue], fun s => by rw [Value.mapScalarValue], ?_, ?_⟩
  · intro l
    constructor
    · rw [Value.mapScalarValue, mapScalarList_eq_map]
    · rw [mapScalarList_eq_map]
      exact List.length_map _ _
  · intro o
    constructor
    · rw [Value.mapScalarValue, mapScalarObj_eq_map]
    · rw [mapScalarObj_eq_map, List.map_map]
      rfl

theorem displayItems_eq_join {S : Type} (R : ScalarRender S) :
    ∀ (l : List (Value S)) (idx : Nat),
      displayItems R (idx + l.length) idx l = joinComma (l.map (Value.display R))
  | [], _ => by simp only [displayItems]; rfl
  | [v], idx => by
      simp only [displayItems, List.length, List.map, joinComma]
      simp
  | v :: w :: rest, idx => by
      have ih := displayItems_eq_join R (w :: rest) (idx + 1)
      have hn : idx + (v :: w :: rest).length = (idx + 1) + (w :: rest).length := by
        simp [List.length]
        omega
      rw [hn]
      rw [displayItems]
      rw [ih]
      have hc : idx < (idx + 1) + (w :: rest).length - 1 := by
        simp [List.length]
        omega
      rw [if_pos hc]
      simp [joinComma, List.map, String.append_assoc]

theorem displayFields_eq_join {S : Type} (R : ScalarRender S) :
    ∀ (o : List (String × Value S)) (idx : Nat),
      displayFields R (idx + o.length) idx o
        = joinComma (o.map fun kv => "\"" ++ kv.1 ++ "\": " ++ Value.display R kv.2)
  | [], _ => by simp only [displayFields]; rfl
  | [(k, v)], idx => by
      simp only [displayFields, List.length, List.map, joinComma]
      simp
  | (k, v) :: p :: rest, idx => by
      have ih := displayFields_eq_join R (p :: rest) (idx + 1)
      have hn : idx + ((k, v) :: p :: rest).length = (idx + 1) + (p :: rest).length := by
        simp [List.length]
        omega
      rw [hn]
      rw [displayFields]
      rw [ih]
      have hc : idx < (idx + 1) + (p :: rest).length - 1 := by
        simp [List.length]
        omega
      rw [if_pos hc]
      simp [joinComma, List.map, String.append_assoc]

/-- C9: the text rendering of a `Value` is deterministic with stable
separators: `Null` renders as the lowercase word `null`; a scalar holding
a string renders wrapped in double quotes; a list renders as `[` followed
by its elements' renderings separated by `", "` and closed by `]`; an
object renders as an opening curly brace followed by `"key": value` pairs
in insertion order separated by `", "` and closed by a closing curly
brace. -/
theorem display_rendering_spec {S : Type} (R : ScalarRender S) :
    (Value.display R (Value.null (S := S)) = "null")
    ∧ (∀ (s : S) (str : String), R.asString s = some str →
        Value.display R (Value.scalar s) = "\"" ++ str ++ "\"")
    ∧ (∀ l : List (Value S),
        Value.display R (Value.list l)
          = "[" ++ joinComma (l.map (Value.display R)) ++ "]")
    ∧ (∀ o : List (String × Value S),
        Value.display R (Value.object o)
          = "\x7b"
            ++ joinComma (o.map fun kv => "\"" ++ kv.1 ++ "\": " ++ Value.display R kv.2)
            ++ "\x7d") := by
  refine ⟨by rw [Value.display], ?_, ?_, ?_⟩
  · intro s str h
    rw [Value.display, h]
  · intro l
    rw [Value.display]
    have h := displayItems_eq_join R l 0
    rw [Nat.zero_add] at h
    rw [h]
  · intro o
    rw [Value.display]
    have h := displayFields_eq_join R o 0
    rw [Nat.zero_add] at h
    rw [h]

/-- A concrete scalar rendering where the scalar type is `String` itself. -/
def renderString : ScalarRender String := ⟨fun s => some s, fun s => s⟩

/-! ## The selection-set resolution algorithm

Embedding of `resolve_selection_set_into_async_recursive` from
`src/juniper/src/types/async_await.rs`. The Rust function scans the
selection set, pushing one pending unit of work per field / fragment
spread / conditionless inline fragment into a `FuturesOrdered` queue
(while the reserved `__typename` meta-field and type-conditioned inline
fragments are handled during the scan itself), and then drains the queue
positionally, merging each contribution into the ordered result object.
Panicking paths (`expect`, `panic`, `unreachable`) are modelled by the
`Fatal` error of an `Except`; the shared error sink is threaded as an
explicit list of positioned errors. -/

/-- A fatal (panicking) condition: schema-consistency violations and other
aborts that are never surfaced as recoverable query errors. -/
inductive Fatal : Type where
  | typeNotFound (name : String)
  | fieldNotFound (field ty : String)
  | fragmentNotFound (name : String)
  | unreachableNested
  | unmatchedInstanceResolution (ty : String)
  | unimplementedCapability (which : String)
  | outOfFuel
deriving Repr, DecidableEq

/-- A recoverable, positioned query error recorded in the error sink
(`executor.push_error_at(e, pos)`); source positions are abstracted to a
single number. -/
structure Err : Type where
  message : String
  pos : Nat
deriving Repr, DecidableEq

/-- Field metadata as consulted by the resolution loop: only the name and
the non-nullness of the declared type matter here
(`meta_field.field_type.is_non_null()`). -/
structure MetaField : Type where
  name : String
  isNonNull : Bool
deriving Repr, DecidableEq

/-- Modelled from the spec: the per-type static descriptor (`MetaType`,
whose definition lives outside the sampled sources) — a type name plus
its field descriptors; `fieldByName` is the by-name lookup used by
`meta_type.field_by_name`. -/
structure MetaTypeM : Type where
  name : String
  fields : List MetaField
deriving Repr, DecidableEq

/-- By-name field lookup on a type descriptor. -/
def MetaTypeM.fieldByName (m : MetaTypeM) (n : String) : Option MetaField :=
  m.fields.find? (fun f => f.name == n)

/-- The capability-implementing instance driving one selection set:
`typeName` is the static `T::name(info)`, `concreteTypeName` the dynamic
`instance.concrete_type_name(context, info)`, `resolveField` the
`resolve_field_async` resolver (argument coercion abstracted away, the
executor's role folded into the returned result), and `resolveIntoType`
the `resolve_into_type_async` downcast (which may itself panic, hence the
outer `Except Fatal`). -/
structure Instance (S : Type) : Type where
  typeName : String
  concreteTypeName : String
  resolveField : String → Except String (Value S)
  resolveIntoType : String → Except Fatal (Except String (Value S))

/-- A selection of the query document: `Field`, `FragmentSpread` or
`InlineFragment` (`ast::Selection`). The result of directive evaluation
(`is_excluded(&directives, variables)`, whose code lives outside the
sampled sources) is carried as the pre-computed `excluded` flag; a
field's own nested selection set and arguments are folded into the
abstract resolver. -/
inductive Sel : Type where
  | field (excluded : Bool) (aliasOpt : Option String) (name : String) (pos : Nat)
  | fragmentSpread (excluded : Bool) (name : String)
  | inlineFragment (excluded : Bool) (typeCond : Option String) (pos : Nat)
      (sels : List Sel)
deriving Repr

/-- The executor-level environment: the schema's type descriptors, the
fragment table, and the embedding of `String` into the scalar type used
by `Value::scalar(concrete_type_name)`. -/
structure Env (S : Type) : Type where
  types : List MetaTypeM
  fragments : List (String × List Sel)
  strScalar : String → S

/-- `schema.concrete_type_by_name`: by-name lookup of a type descriptor. -/
def Env.concreteTypeByName {S : Type} (e : Env S) (n : String) : Option MetaTypeM :=
  e.types.find? (fun t => t.name == n)

/-- `executor.fragment_by_name`: by-name lookup in the fragment table. -/
def Env.fragmentByName {S : Type} (e : Env S) (n : String) : Option (List Sel) :=
  (e.fragments.find? (fun f => f.1 == n)).map (fun f => f.2)

/-- Modelled from the spec: `Object::add_field` / `merge_key_into` (from
`value/object.rs` and `types/base.rs`, which are outside the sampled
sources) — inserting under a response key into the insertion-ordered
object; a later merge of an already-present key overwrites the earlier
value in place (last-write-wins), otherwise the pair is appended. -/
def addField {S : Type} (o : Obj S) (k : String) (v : Value S) : Obj S :=
  if o.any (fun p => p.1 == k) then
    o.map (fun p => if p.1 == k then (k, v) else p)
  else
    o ++ [(k, v)]

/-- One pending unit of work pushed into the `FuturesOrdered` queue during
the scan: a field resolver invocation still to be run
(`AsyncValueFuture::Field`), an already-materialized key spliced from a
type-conditioned inline fragment (`AsyncValueFuture::InlineFragment1`), a
named-fragment resolution (`AsyncValueFuture::FragmentSpread`), or a
conditionless inline fragment resolution
(`AsyncValueFuture::InlineFragment2`). -/
inductive Pending (S : Type) : Type where
  | fieldUnit (responseName fieldName : String) (pos : Nat) (isNonNull : Bool)
  | splicedField (name : String) (v : Value S)
  | spreadUnit (fragName : String)
  | inlineUnit (sels : List Sel)
deriving Repr

/-- The scan phase of `resolve_selection_set_into_async_recursive`
(the `for selection in selection_set` loop): skips excluded selections,
records the `__typename` meta-field synchronously into the object under
its response key, looks up field metadata (absence panics), pushes one
pending unit per remaining field / fragment spread / conditionless inline
fragment, and resolves type-conditioned inline fragments on the spot —
splicing the keys of an object result into the queue, recording an error
at the fragment's position on failure, and contributing nothing for any
other result. -/
def scanSelections {S : Type} (env : Env S) (inst : Instance S) (meta : MetaTypeM) :
    List Sel → Obj S → List (Pending S) → List Err →
    Except Fatal (Obj S × List (Pending S) × List Err)
  | [], obj, units, errs => .ok (obj, units, errs)
  | Sel.field ex aliasOpt name pos :: rest, obj, units, errs =>
      if ex then
        scanSelections env inst meta rest obj units errs
      else
        let responseName := aliasOpt.getD name
        if name == "__typename" then
          scanSelections env inst meta rest
            (addField obj responseName (Value.scalar (env.strScalar inst.concreteTypeName)))
            units errs
        else
          match meta.fieldByName name with
          | none => .error (Fatal.fieldNotFound name meta.name)
          | some mf =>
              scanSelections env inst meta rest obj
                (units ++ [Pending.fieldUnit responseName name pos mf.isNonNull]) errs
  | Sel.fragmentSpread ex name :: rest, obj, units, errs =>
      if ex then
        scanSelections env inst meta rest obj units errs
      else
        scanSelections env inst meta rest obj (units ++ [Pending.spreadUnit name]) errs
  | Sel.inlineFragment ex typeCond pos sels :: rest, obj, units, errs =>
      if ex then
        scanSelections env inst meta rest obj units errs
      else
        match typeCond with
        | some tc =>
            match inst.resolveIntoType tc with
            | .error f => .error f
            | .ok (.ok (Value.object o)) =>
                scanSelections env inst meta rest obj
                  (units ++ o.map (fun kv => Pending.splicedField kv.1 kv.2)) errs
            | .ok (.error e) =>
                scanSelections env inst meta rest obj units (errs ++ [⟨e, pos⟩])
            | .ok (.ok _) =>
                scanSelections env inst meta rest obj units errs
        | none =>
            scanSelections env inst meta rest obj (units ++ [Pending.inlineUnit sels]) errs

/-- The drain phase (the `while let Some(item) = async_values.next().await`
loop), parametrized by the resolver `resolve` used for nested
selection-set resolution (the recursive call of the Rust code): units are
consumed in queue order. A field unit runs its resolver now — a
successful `Null` under a non-null type yields no value; any other
success yields the value; an error is pushed at the field's position and
yields no value when non-null, a `Null` value otherwise. A unit with no
value collapses the whole object to `Null` immediately (remaining units
are dropped). Valued field units and spliced keys are merged
last-write-wins; a nested unit resolves a fragment's selection set
against the same instance — a `Null` result collapses the object, an
object result is merged key by key, anything else is unreachable. -/
def drainUnitsWith {S : Type} (env : Env S) (inst : Instance S)
    (resolve : List Sel → List Err → Except Fatal (Value S × List Err)) :
    List (Pending S) → Obj S → List Err → Except Fatal (Value S × List Err)
  | [], obj, errs => .ok (Value.object obj, errs)
  | Pending.fieldUnit rn fn pos nn :: rest, obj, errs =>
      match inst.resolveField fn with
      | .ok v =>
          if nn && v.isNull then
            .ok (Value.null, errs)
          else
            drainUnitsWith env inst resolve rest (addField obj rn v) errs
      | .error e =>
          if nn then
            .ok (Value.null, errs ++ [⟨e, pos⟩])
          else
            drainUnitsWith env inst resolve rest (addField obj rn Value.null)
              (errs ++ [⟨e, pos⟩])
  | Pending.splicedField k v :: rest, obj, errs =>
      drainUnitsWith env inst resolve rest (addField obj k v) errs
  | Pending.spreadUnit fragName :: rest, obj, errs =>
      match env.fragmentByName fragName with
      | none => .error (Fatal.fragmentNotFound fragName)
      | some fsels =>
          match resolve fsels errs with
          | .error f => .error f
          | .ok (Value.null, errs2) => .ok (Value.null, errs2)
          | .ok (Value.object o, errs2) =>
              drainUnitsWith env inst resolve rest
                (o.foldl (fun acc kv => addField acc kv.1 kv.2) obj) errs2
          | .ok (_, _) => .error Fatal.unreachableNested
  | Pending.inlineUnit sels :: rest, obj, errs =>
      match resolve sels errs with
      | .error f => .error f
      | .ok (Value.null, errs2) => .ok (Value.null, errs2)
      | .ok (Value.object o, errs2) =>
          drainUnitsWith env inst resolve rest
            (o.foldl (fun acc kv => addField acc kv.1 kv.2) obj) errs2
      | .ok (_, _) => .error Fatal.unreachableNested

/-- `resolve_selection_set_into_async_recursive`: looks up the concrete
type's descriptor by the instance's static type name (absence panics),
scans the selection set, and drains the queue with itself as the nested
resolver. The recursion through the fragment table is bounded by `fuel`;
exhausting it is reported as a distinguished fatal outcome. -/
def resolveSelectionSet {S : Type} (env : Env S) (inst : Instance S) :
    Nat → List Sel → List Err → Except Fatal (Value S × List Err)
  | 0, _, _ => .error Fatal.outOfFuel
  | fuel + 1, sels, errs =>
      match env.concreteTypeByName inst.typeName with
      | none => .error (Fatal.typeNotFound inst.typeName)
      | some meta =>
          match scanSelections env inst meta sels [] [] errs with
          | .error f => .error f
          | .ok (obj, units, errs1) =>
              drainUnitsWith env inst (resolveSelectionSet env inst fuel) units obj errs1

/-- Key lookup in an ordered response object. -/
def lookupKey {S : Type} (o : Obj S) (k : String) : Option (Value S) :=
  (o.find? (fun p => p.1 == k)).map (fun p => p.2)

theorem map_fst_replace {S : Type} (k : String) (v : Value S) :
    ∀ o : Obj S,
      (o.map (fun p => if p.1 == k then (k, v) else p)).map Prod.fst = o.map Prod.fst
  | [] => rfl
  | p :: rest => by
      have ih := map_fst_replace k v rest
      simp only [List.map_cons]
      rw [ih]
      by_cases hp : p.1 = k
      · rw [if_pos (beq_iff_eq.mpr hp)]
        rw [hp]
      · rw [if_neg (by simp [hp])]

theorem lookup_replace {S : Type} (k : String) (v : Value S) :
    ∀ o : Obj S, o.any (fun p => p.1 == k) = true →
      lookupKey (o.map (fun p => if p.1 == k then (k, v) else p)) k = some v
  | p :: rest, h => by
      simp only [List.map_cons]
      by_cases hp : p.1 = k
      · rw [if_pos (beq_iff_eq.mpr hp)]
        unfold lookupKey
        rw [List.find?_cons_of_pos _ (by simp)]
        rfl
      · rw [if_neg (by simp [hp])]
        have hrest : rest.any (fun p => p.1 == k) = true := by
          simp only [List.any_cons] at h
          rcases Bool.or_eq_true_iff.mp h with h1 | h2
          · exact absurd (by simpa using h1) hp
          · exact h2
        have ih := lookup_replace k v rest hrest
        unfold lookupKey at ih ⊢
        rw [List.find?_cons_of_neg _ (by simp [hp])]
        exact ih

theorem addField_present {S : Type} (o : Obj S) (k : String) (v : Value S)
    (h : o.any (fun p => p.1 == k) = true) :
    (addField o k v).map Prod.fst = o.map Prod.fst
    ∧ lookupKey (addField o k v) k = some v := by
  unfold addField
  rw [if_pos h]
  exact ⟨map_fst_replace k v o, lookup_replace k v o h⟩

theorem addField_absent {S : Type} (o : Obj S) (k : String) (v : Value S)
    (h : o.any (fun p => p.1 == k) = false) :
    addField o k v = o ++ [(k, v)] := by
  unfold addField
  rw [if_neg (by simp [h])]

theorem any_addField {S : Type} (o : Obj S) (k : String) (v : Value S) :
    (addField o k v).any (fun p => p.1 == k) = true := by
  unfold addField
  by_cases h : o.any (fun p => p.1 == k) = true
  · rw [if_pos h]
    rcases List.any_eq_true.mp h with ⟨p, hmem, hp⟩
    exact List.any_eq_true.mpr
      ⟨(k, v), List.mem_map.mpr ⟨p, hmem, by simp [hp]⟩, by simp⟩
  · rw [if_neg h]
    exact List.any_eq_true.mpr ⟨(k, v), by simp, by simp⟩

/-- A concrete schema environment used by the witnesses: one type `Query`
with nullable fields `a`, `b`, `c`, a non-null field `n`, and a fragment
`F` selecting `a`. -/
def envW : Env String :=
  ⟨[⟨"Query", [⟨"a", false⟩, ⟨"b", false⟩, ⟨"c", false⟩, ⟨"n", true⟩]⟩],
   [("F", [Sel.field false none "a" 7])],
   fun s => s⟩

/-- A concrete instance for the witnesses: `a` and `c` resolve to scalars,
`n` resolves successfully to `Null`, everything else errors. -/
def instW : Instance String :=
  ⟨"Query", "Query",
   fun f =>
     if f == "a" then .ok (Value.scalar "va")
     else if f == "c" then .ok (Value.scalar "vc")
     else if f == "n" then .ok Value.null
     else .error "boom",
   fun _ => .ok (.ok Value.null)⟩

/-- C6: merging into the result object is last-write-wins: inserting under
an already-present response key overwrites the earlier value in place
(the key set is unchanged and the key now maps to the new value, so two
merges of one key leave the later value); and spreading the same fragment
twice into one selection set yields a single response key carrying the
fragment's resolved value, not two entries. -/
theorem merge_last_write_wins {S : Type} (env : Env S) (inst : Instance S) :
    (∀ (o : Obj S) (k : String) (v : Value S),
        o.any (fun p => p.1 == k) = true →
          (addField o k v).map Prod.fst = o.map Prod.fst
          ∧ lookupKey (addField o k v) k = some v)
    ∧ (∀ (o : Obj S) (k : String) (v1 v2 : Value S),
        lookupKey (addField (addField o k v1) k v2) k = some v2
        ∧ (addField (addField o k v1) k v2).map Prod.fst
            = (addField o k v1).map Prod.fst)
    ∧ (∀ (meta : MetaTypeM) (fragName x : String) (px fuel : Nat) (vx : Value S)
        (errs : List Err),
        env.concreteTypeByName inst.typeName = some meta →
        env.fragmentByName fragName = some [Sel.field false none x px] →
        x ≠ "__typename" →
        meta.fieldByName x = some ⟨x, false⟩ →
        inst.resolveField x = .ok vx →
        resolveSelectionSet env inst (fuel + 2)
            [Sel.fragmentSpread false fragName, Sel.fragmentSpread false fragName] errs
          = .ok (Value.object [(x, vx)], errs)) := by
  refine ⟨fun o k v h => addField_present o k v h, ?_, ?_⟩
  · intro o k v1 v2
    have h := any_addField o k v1
    exact ⟨(addField_present _ k v2 h).2, (addField_present _ k v2 h).1⟩
  · intro meta fragName x px fuel vx errs hmeta hfrag hxt hxf hxr
    have hxtb : (x == "__typename") = false := by
      simpa using hxt
    simp only [resolveSelectionSet, hmeta, scanSelections, Bool.false_eq_true, if_false,
      List.nil_append, drainUnitsWith, hfrag, hxtb, hxf, hxr, addField, List.any_nil,
      List.append_nil, Value.isNull, Bool.and_false]
    simp [drainUnitsWith, addField]

/-- C1: when a field's resolver returns an error, the error is recorded at
the field's source position; if the field's declared type is non-null the
entire enclosing object collapses to `Null` (the sibling contributions
accumulated in `obj` are discarded and the remaining units dropped),
otherwise only that field's response key becomes `Null` and draining of
the siblings continues with their values retained; for three sibling
nullable fields whose middle resolver fails, the response keeps the other
two values and exactly one error entry at the failed field's position. -/
theorem resolver_error_completion_policy {S : Type} (env : Env S) (inst : Instance S)
    (resolve : List Sel → List Err → Except Fatal (Value S × List Err))
    (fn e : String) (herr : inst.resolveField fn = .error e) :
    (∀ (rn : String) (pos : Nat) (rest : List (Pending S)) (obj : Obj S) (errs : List Err),
        drainUnitsWith env inst resolve (Pending.fieldUnit rn fn pos true :: rest) obj errs
          = .ok (Value.null, errs ++ [⟨e, pos⟩]))
    ∧ (∀ (rn : String) (pos : Nat) (rest : List (Pending S)) (obj : Obj S) (errs : List Err),
        drainUnitsWith env inst resolve (Pending.fieldUnit rn fn pos false :: rest) obj errs
          = drainUnitsWith env inst resolve rest (addField obj rn Value.null)
              (errs ++ [⟨e, pos⟩]))
    ∧ (∀ (meta : MetaTypeM) (a c : String) (va vc : Value S) (pa pb pc frl : Nat)
        (errs : List Err),
        env.concreteTypeByName inst.typeName = some meta →
        a ≠ "__typename" → fn ≠ "__typename" → c ≠ "__typename" →
        a ≠ fn → a ≠ c → fn ≠ c →
        meta.fieldByName a = some ⟨a, false⟩ →
        meta.fieldByName fn = some ⟨fn, false⟩ →
        meta.fieldByName c = some ⟨c, false⟩ →
        inst.resolveField a = .ok va →
        inst.resolveField c = .ok vc →
        resolveSelectionSet env inst (frl + 1)
            [Sel.field false none a pa, Sel.field false none fn pb, Sel.field false none c pc]
            errs
          = .ok (Value.object [(a, va), (fn, Value.null), (c, vc)], errs ++ [⟨e, pb⟩])) := by
  refine ⟨?_, ?_, ?_⟩
  · intro rn pos rest obj errs
    simp [drainUnitsWith, herr]
  · intro rn pos rest obj errs
    simp [drainUnitsWith, herr]
  · intro meta a c va vc pa pb pc frl errs hmeta hat hbt hct hab hac hbc hfa hfb hfc hra hrc
    have hatb : (a == "__typename") = false := by simpa using hat
    have hbtb : (fn == "__typename") = false := by simpa using hbt
    have hctb : (c == "__typename") = false := by simpa using hct
    have habb : (a == fn) = false := by simpa using hab
    have hacb : (a == c) = false := by simpa using hac
    have hbcb : (fn == c) = false := by simpa using hbc
    simp only [resolveSelectionSet, hmeta, scanSelections, Bool.false_eq_true, if_false,
      hatb, hbtb, hctb, hfa, hfb, hfc, List.nil_append]
    simp only [drainUnitsWith, hra, herr, hrc, Value.isNull, Bool.false_and,
      Bool.false_eq_true, if_false]
    simp [addField, habb, hacb, hbcb]

/-- Witness for C1: in the concrete witness schema, of three sibling
nullable fields the middle resolver fails; the other two values are kept,
the failed key is `Null`, and exactly one positioned error is recorded. -/
theorem resolver_error_completion_policy_witness :
    resolveSelectionSet envW instW 1
        [Sel.field false none "a" 0, Sel.field false none "b" 1, Sel.field false none "c" 2]
        []
      = .ok (Value.object [("a", Value.scalar "va"), ("b", Value.null), ("c", Value.scalar "vc")],
             [⟨"boom", 1⟩]) := by
  exact (resolver_error_completion_policy envW instW (fun _ _ => .error Fatal.outOfFuel)
      "b" "boom" rfl).2.2
    ⟨"Query", [⟨"a", false⟩, ⟨"b", false⟩, ⟨"c", false⟩, ⟨"n", true⟩]⟩
    "a" "c" (Value.scalar "va") (Value.scalar "vc") 0 1 2 0 []
    rfl (by decide) (by decide) (by decide) (by decide) (by decide) (by decide)
    rfl rfl rfl rfl rfl

/-- C10: when a non-null field's resolver succeeds with `Null`, the
enclosing object collapses to `Null` exactly as on resolver failure, but
the error sink is left unchanged; a response can therefore lose a whole
object while reporting an empty error list. -/
theorem non_null_ok_null_collapse {S : Type} (env : Env S) (inst : Instance S)
    (resolve : List Sel → List Err → Except Fatal (Value S × List Err))
    (fn : String) (v : Value S)
    (hok : inst.resolveField fn = .ok v) (hnull : v.isNull = true) :
    (∀ (rn : String) (pos : Nat) (rest : List (Pending S)) (obj : Obj S) (errs : List Err),
        drainUnitsWith env inst resolve (Pending.fieldUnit rn fn pos true :: rest) obj errs
          = .ok (Value.null, errs))
    ∧ (∀ (meta : MetaTypeM) (a : String) (va : Value S) (pa pb frl : Nat),
        env.concreteTypeByName inst.typeName = some meta →
        a ≠ "__typename" → fn ≠ "__typename" → a ≠ fn →
        meta.fieldByName a = some ⟨a, false⟩ →
        meta.fieldByName fn = some ⟨fn, true⟩ →
        inst.resolveField a = .ok va →
        resolveSelectionSet env inst (frl + 1)
            [Sel.field false none a pa, Sel.field false none fn pb] []
          = .ok (Value.null, [])) := by
  constructor
  · intro rn pos rest obj errs
    simp [drainUnitsWith, hok, hnull]
  · intro meta a va pa pb frl hmeta hat hbt hab hfa hfb hra
    have hatb : (a == "__typename") = false := by simpa using hat
    have hbtb : (fn == "__typename") = false := by simpa using hbt
    simp only [resolveSelectionSet, hmeta, scanSelections, Bool.false_eq_true, if_false,
      hatb, hbtb, hfa, hfb, List.nil_append]
    simp only [drainUnitsWith, hra, hok, Bool.true_and, hnull, Bool.false_and,
      Bool.false_eq_true, if_false]
    simp

/-- Witness for C10: a nullable sibling resolves fine, the non-null field
`n` resolves to `Null`; the whole object is lost and no error recorded. -/
theorem non_null_ok_null_collapse_witness :
    resolveSelectionSet envW instW 1
        [Sel.field false none "a" 0, Sel.field false none "n" 1] []
      = .ok (Value.null, []) := by
  exact (non_null_ok_null_collapse envW instW (fun _ _ => .error Fatal.outOfFuel)
      "n" Value.null rfl rfl).2
    ⟨"Query", [⟨"a", false⟩, ⟨"b", false⟩, ⟨"c", false⟩, ⟨"n", true⟩]⟩
    "a" (Value.scalar "va") 0 1 0
    rfl (by decide) (by decide) (by decide) rfl rfl rfl

/-- Witness for C6: spreading the fragment `F` twice yields a single
response key with the fragment's value, not two entries. -/
theorem merge_last_write_wins_witness :
    resolveSelectionSet envW instW 2
        [Sel.fragmentSpread false "F", Sel.fragmentSpread false "F"] []
      = .ok (Value.object [("a", Value.scalar "va")], []) := by
  exact (merge_last_write_wins envW instW).2.2
    ⟨"Query", [⟨"a", false⟩, ⟨"b", false⟩, ⟨"c", false⟩, ⟨"n", true⟩]⟩
    "F" "a" 7 0 (Value.scalar "va") []
    rfl rfl (by decide) rfl rfl

/-! ## Interface / union instance resolution

Embedding of the code generated by `graphql_interface!`
(`src/juniper/src/macros/interface.rs`): the `instance_resolvers` item is
an ordered list of (candidate type, accessor) pairs; `concrete_type_name`
evaluates the accessors in declaration order and returns the name of the
first candidate whose accessor yields `Some`; `resolve_into_type` finds
the pair whose declared type name equals the requested name and resolves
the value its accessor yields (an absent value resolves to `Null`,
modelled from the spec for the `Option` resolution that lives outside the
sampled sources); in both functions falling off the end of the list
panics. -/

/-- One `instance_resolvers` arm: a candidate type name and the accessor
expression evaluated against the instance and the context. -/
structure ResolverPair (I C V : Type) : Type where
  typeName : String
  accessor : I → C → Option V

/-- The generated `concrete_type_name`: first arm whose accessor yields a
present value wins, in declaration order; no match panics. -/
def concreteTypeNameOf {I C V : Type} (iname : String) (self : I) (ctx : C) :
    List (ResolverPair I C V) → Except Fatal String
  | [] => .error (Fatal.unmatchedInstanceResolution iname)
  | p :: rest =>
      if (p.accessor self ctx).isSome then .ok p.typeName
      else concreteTypeNameOf iname self ctx rest

/-- The generated `resolve_into_type`: the arm whose declared type name
equals the requested name resolves the value its accessor yields
(`executor.resolve`, abstracted as `resolveVariant`; a `None` accessor
result resolves to `Null`); no matching arm panics. -/
def resolveIntoTypeOf {S I C V : Type} (iname : String)
    (resolveVariant : V → Except String (Value S)) (self : I) (ctx : C)
    (typeName : String) :
    List (ResolverPair I C V) → Except Fatal (Except String (Value S))
  | [] => .error (Fatal.unmatchedInstanceResolution iname)
  | p :: rest =>
      if typeName == p.typeName then
        .ok (match p.accessor self ctx with
             | some v => resolveVariant v
             | none => .ok Value.null)
      else resolveIntoTypeOf iname resolveVariant self ctx typeName rest

/-- C5: dynamic type-name resolution evaluates the (candidate type,
accessor) pairs in declaration order against the instance and context and
returns the name of the first candidate whose accessor yields a present
value: whenever every earlier arm yields `None` and arm `x` yields
`Some`, the result is `x.typeName` — whatever arms (matching or not)
are declared after it. -/
theorem instance_resolution_first_match {I C V : Type} (iname : String)
    (self : I) (ctx : C) (x : ResolverPair I C V) (post : List (ResolverPair I C V))
    (hx : (x.accessor self ctx).isSome = true) :
    ∀ pre : List (ResolverPair I C V), (∀ p ∈ pre, p.accessor self ctx = none) →
      concreteTypeNameOf iname self ctx (pre ++ x :: post) = .ok x.typeName
  | [], _ => by
      simp [concreteTypeNameOf, hx]
  | p :: pre, hpre => by
      have hp : p.accessor self ctx = none := hpre p (by simp)
      have ih := instance_resolution_first_match iname self ctx x post hx pre
        (fun q hq => hpre q (by simp [hq]))
      simpa [concreteTypeNameOf, hp] using ih

/-- A union instance where the accessors of both declared variants yield a
present value: `X` declared first, `Y` second, both matching. -/
def bothMatchPairs : List (ResolverPair Unit Unit Unit) :=
  [⟨"X", fun _ _ => some ()⟩, ⟨"Y", fun _ _ => some ()⟩]

/-- Witness for C5: with variants `X` and `Y` both matching the instance
and `X` declared first, the resolved dynamic type name is `X`. -/
theorem instance_resolution_first_match_witness :
    concreteTypeNameOf "XY" () () bothMatchPairs = .ok "X" := by
  exact instance_resolution_first_match "XY" () ()
    ⟨"X", fun _ _ => some ()⟩ [⟨"Y", fun _ _ => some ()⟩] rfl [] (fun p hp => by cases hp)

/-- C7: schema-consistency violations are fatal, not recoverable query
errors: a selected field whose metadata is absent on the concrete type
makes the resolution fatal (no positioned error recorded, no `Null`
result), and a requested downcast type name matching no instance-resolver
arm makes `resolve_into_type` fatal. -/
theorem schema_consistency_fatal {S I C V : Type} (env : Env S) (inst : Instance S) :
    (∀ (meta : MetaTypeM) (fname : String) (aliasOpt : Option String)
        (pos frl : Nat) (rest : List Sel) (errs : List Err),
        env.concreteTypeByName inst.typeName = some meta →
        fname ≠ "__typename" →
        meta.fieldByName fname = none →
        resolveSelectionSet env inst (frl + 1)
            (Sel.field false aliasOpt fname pos :: rest) errs
          = .error (Fatal.fieldNotFound fname meta.name))
    ∧ (∀ (iname requested : String) (resolveVariant : V → Except String (Value S))
        (self : I) (ctx : C) (pairs : List (ResolverPair I C V)),
        (∀ p ∈ pairs, p.typeName ≠ requested) →
        resolveIntoTypeOf iname resolveVariant self ctx requested pairs
          = .error (Fatal.unmatchedInstanceResolution iname)) := by
  constructor
  · intro meta fname aliasOpt pos frl rest errs hmeta hft hnone
    have hftb : (fname == "__typename") = false := by simpa using hft
    simp [resolveSelectionSet, hmeta, scanSelections, hftb, hnone]
  · intro iname requested resolveVariant self ctx pairs
    induction pairs with
    | nil => intro _; simp [resolveIntoTypeOf]
    | cons p rest ih =>
        intro hne
        have hp : (requested == p.typeName) = false := by
          simpa using fun h => hne p (by simp) h.symm
        simp only [resolveIntoTypeOf, hp, Bool.false_eq_true, if_false]
        exact ih (fun q hq => hne q (by simp [hq]))

/-- Witness for C7: a field `missing` absent from the witness schema makes
resolution fatal, and a downcast to an undeclared type name is fatal on
the concrete resolver list. -/
theorem schema_consistency_fatal_witness :
    resolveSelectionSet envW instW 1 [Sel.field false none "missing" 0] []
      = .error (Fatal.fieldNotFound "missing" "Query")
    ∧ resolveIntoTypeOf (V := Unit) "XY" (fun _ => .ok (Value.null (S := String))) () ()
        "Z" bothMatchPairs
      = .error (Fatal.unmatchedInstanceResolution "XY") := by
  constructor
  · exact (schema_consistency_fatal (I := Unit) (C := Unit) (V := Unit) envW instW).1
      ⟨"Query", [⟨"a", false⟩, ⟨"b", false⟩, ⟨"c", false⟩, ⟨"n", true⟩]⟩
      "missing" none 0 0 [] [] rfl (by decide) rfl
  · exact (schema_consistency_fatal (I := Unit) (C := Unit) (V := Unit) envW instW).2
      "XY" "Z" (fun _ => .ok Value.null) () () bothMatchPairs
      (by intro p hp; fin_cases hp <;> decide)

/-- C8: the reserved `__typename` meta-field is resolved synchronously
during the scan — no pending unit is scheduled and the field resolver is
not invoked — by recording the instance's concrete type name as a scalar
under the selection's response key (the alias if present, else the field
name); and the spec's example: querying `__typename` together with an
inline fragment on a non-matching type yields the concrete type name,
no keys from the fragment and no error. -/
theorem typename_meta_field {S : Type} (env : Env S) (inst : Instance S) :
    (∀ (meta : MetaTypeM) (aliasOpt : Option String) (pos : Nat) (rest : List Sel)
        (obj : Obj S) (units : List (Pending S)) (errs : List Err),
        scanSelections env inst meta (Sel.field false aliasOpt "__typename" pos :: rest)
            obj units errs
          = scanSelections env inst meta rest
              (addField obj (aliasOpt.getD "__typename")
                (Value.scalar (env.strScalar inst.concreteTypeName)))
              units errs)
    ∧ (∀ (meta : MetaTypeM) (p1 p2 frl : Nat) (fragSels : List Sel),
        env.concreteTypeByName inst.typeName = some meta →
        inst.concreteTypeName = "Droid" →
        inst.resolveIntoType "Human" = .ok (.ok Value.null) →
        resolveSelectionSet env inst (frl + 1)
            [Sel.field false none "__typename" p1,
             Sel.inlineFragment false (some "Human") p2 fragSels] []
          = .ok (Value.object [("__typename", Value.scalar (env.strScalar "Droid"))], [])) := by
  constructor
  · intro meta aliasOpt pos rest obj units errs
    simp [scanSelections]
  · intro meta p1 p2 frl fragSels hmeta hname hinto
    simp only [resolveSelectionSet, hmeta, scanSelections, hname, hinto,
      Bool.false_eq_true, if_false, List.nil_append]
    simp [drainUnitsWith, addField]

/-- A `Droid` instance of an interface with a `Human` implementer that the
instance does not downcast into: the accessor-backed downcast resolves to
`Null`. -/
def instDroid : Instance String :=
  ⟨"Query", "Droid",
   fun _ => .error "no fields",
   fun t => if t == "Human" then .ok (.ok Value.null)
            else .error (Fatal.unmatchedInstanceResolution "Character")⟩

/-- Witness for C8: `__typename` with an inline fragment on `Human` against
a `Droid` instance yields only the concrete type name and no error. -/
theorem typename_meta_field_witness :
    resolveSelectionSet envW instDroid 1
        [Sel.field false none "__typename" 0,
         Sel.inlineFragment false (some "Human") 1 [Sel.field false none "id" 2]] []
      = .ok (Value.object [("__typename", Value.scalar "Droid")], []) := by
  exact (typename_meta_field envW instDroid).2
    ⟨"Query", [⟨"a", false⟩, ⟨"b", false⟩, ⟨"c", false⟩, ⟨"n", true⟩]⟩
    0 1 0 [Sel.field false none "id" 2] rfl rfl rfl

/-! ## Completion order and declaration order

The pending units of one selection set are pushed into a `FuturesOrdered`
queue (from the `futures` crate). Its contract: futures complete in an
arbitrary order, but `next()` yields the results in push order. We model
a completion schedule as a permutation of the queue positions; the
drained output lists the unit results by ascending position — sorting the
completion events by position recovers the pushed sequence. -/

/-- The sequence drained out of a `FuturesOrdered` queue holding `units`
when the futures complete in the order `sched`: results are yielded by
ascending queue position. -/
def futuresOrderedOutput {α : Type} (units : List α) (sched : List (Fin units.length)) :
    List α :=
  sched.mergeSort.map (fun i => units.get i)

theorem futuresOrderedOutput_perm {α : Type} (units : List α)
    (sched : List (Fin units.length))
    (h : sched.Perm (List.finRange units.length)) :
    futuresOrderedOutput units sched = units := by
  unfold futuresOrderedOutput
  have hperm : sched.mergeSort.Perm (List.finRange units.length) :=
    (List.mergeSort_perm sched _).trans h
  have hsorted : List.Sorted (· ≤ ·) sched.mergeSort := List.sorted_mergeSort' sched
  rw [List.eq_of_perm_of_sorted hperm hsorted (List.pairwise_le_finRange units.length)]
  exact List.finRange_map_get units

/-- Does a selection have the shape used by the declaration-order theorem:
an included plain field, not the type-name meta-field, whose metadata
declares a nullable type. -/
def isPlainNullableField (meta : MetaTypeM) : Sel → Bool
  | Sel.field ex _ n _ =>
      !ex && (n != "__typename")
        && (match meta.fieldByName n with
            | some mf => !mf.isNonNull
            | none => false)
  | _ => false

/-- The response keys of a selection list's fields in declaration order
(the alias when present, else the field name). -/
def declaredKeys : List Sel → List String
  | [] => []
  | Sel.field _ aliasOpt n _ :: rest => aliasOpt.getD n :: declaredKeys rest
  | _ :: rest => declaredKeys rest

/-- The pending units that the scan phase produces for a list of plain
nullable fields. -/
def fieldsToUnits {S : Type} : List Sel → List (Pending S)
  | [] => []
  | Sel.field _ aliasOpt n pos :: rest =>
      Pending.fieldUnit (aliasOpt.getD n) n pos false :: fieldsToUnits rest
  | _ :: rest => fieldsToUnits rest

/-- The response keys of a resolution outcome (empty unless the outcome is
an object). -/
def resultKeys {S : Type} : Except Fatal (Value S × List Err) → List String
  | .ok (Value.object o, _) => o.map Prod.fst
  | _ => []

theorem scan_plain_fields {S : Type} (env : Env S) (inst : Instance S) (meta : MetaTypeM) :
    ∀ (sels : List Sel) (obj : Obj S) (units : List (Pending S)) (errs : List Err),
      (∀ s ∈ sels, isPlainNullableField meta s = true) →
      scanSelections env inst meta sels obj units errs
        = .ok (obj, units ++ fieldsToUnits sels, errs)
  | [], obj, units, errs, _ => by
      simp [scanSelections, fieldsToUnits]
  | Sel.field ex aliasOpt n pos :: rest, obj, units, errs, h => by
      have hhead := h (Sel.field ex aliasOpt n pos) (by simp)
      simp only [isPlainNullableField, Bool.and_eq_true, Bool.not_eq_eq_eq_not,
        Bool.not_true, bne_iff_ne, ne_eq] at hhead
      obtain ⟨⟨hex, hnt⟩, hmatch⟩ := hhead
      cases hf : meta.fieldByName n with
      | none => rw [hf] at hmatch; cases hmatch
      | some mf =>
          rw [hf] at hmatch
          have hnn : mf.isNonNull = false := by simpa using hmatch
          have hntb : (n == "__typename") = false := by simpa using hnt
          have ih := scan_plain_fields env inst meta rest obj
            (units ++ [Pending.fieldUnit (aliasOpt.getD n) n pos mf.isNonNull])
            errs (fun s hs => h s (by simp [hs]))
          rw [hnn] at ih
          simp only [scanSelections, hex, Bool.false_eq_true, if_false, hntb, hf, hnn]
          rw [ih]
          simp [fieldsToUnits]
  | Sel.fragmentSpread ex n :: rest, obj, units, errs, h => by
      have hhead := h (Sel.fragmentSpread ex n) (by simp)
      simp [isPlainNullableField] at hhead
  | Sel.inlineFragment ex tc pos sels :: rest, obj, units, errs, h => by
      have hhead := h (Sel.inlineFragment ex tc pos sels) (by simp)
      simp [isPlainNullableField] at hhead

theorem drain_field_units_keys {S : Type} (env : Env S) (inst : Instance S)
    (resolve : List Sel → List Err → Except Fatal (Value S × List Err)) :
    ∀ (sels : List Sel) (obj : Obj S) (errs : List Err),
      (declaredKeys sels).Nodup →
      (∀ k ∈ declaredKeys sels, k ∉ obj.map Prod.fst) →
      resultKeys (drainUnitsWith env inst resolve (fieldsToUnits (S := S) sels) obj errs)
        = obj.map Prod.fst ++ declaredKeys sels
  | [], obj, errs, _, _ => by
      simp [fieldsToUnits, drainUnitsWith, resultKeys, declaredKeys]
  | Sel.field ex aliasOpt n pos :: rest, obj, errs, hnd, hdisj => by
      have hmem : (aliasOpt.getD n) ∉ obj.map Prod.fst :=
        hdisj (aliasOpt.getD n) (by simp [declaredKeys])
      have habs : obj.any (fun p => p.1 == aliasOpt.getD n) = false := by
        rw [List.any_eq_false]
        intro p hp hcontra
        exact hmem (List.mem_map.mpr ⟨p, hp, by simpa using hcontra⟩)
      have hnd' : (declaredKeys rest).Nodup := by
        simpa [declaredKeys] using hnd.of_cons
      have hhd : (aliasOpt.getD n) ∉ declaredKeys rest := by
        have := hnd
        simp only [declaredKeys] at this
        exact (List.nodup_cons.mp this).1
      have hdisj' : ∀ k ∈ declaredKeys rest,
          k ∉ (obj ++ [((aliasOpt.getD n), Value.null)]).map Prod.fst := by
        intro k hk
        simp only [List.map_append, List.mem_append, List.map_cons, List.map_nil,
          List.mem_cons, List.not_mem_nil]
        rintro (hko | hkn)
        · exact hdisj k (by simp [declaredKeys, hk]) hko
        · rcases hkn with hkn | hkn
          · exact hhd (hkn ▸ hk)
          · cases hkn
      simp only [fieldsToUnits, drainUnitsWith]
      cases hr : inst.resolveField n with
      | ok v =>
          simp only [Value.isNull, Bool.false_and, Bool.false_eq_true, if_false]
          rw [addField_absent obj _ v habs]
          have hdisjv : ∀ k ∈ declaredKeys rest,
              k ∉ (obj ++ [((aliasOpt.getD n), v)]).map Prod.fst := by
            intro k hk
            have := hdisj' k hk
            simpa using this
          rw [drain_field_units_keys env inst resolve rest _ errs hnd' hdisjv]
          simp [declaredKeys]
      | error e =>
          simp only [Bool.false_eq_true, if_false]
          rw [addField_absent obj _ Value.null habs]
          have hdisjv : ∀ k ∈ declaredKeys rest,
              k ∉ (obj ++ [((aliasOpt.getD n), Value.null)]).map Prod.fst := hdisj'
          rw [drain_field_units_keys env inst resolve rest _ _ hnd' hdisjv]
          simp [declaredKeys]
  | Sel.fragmentSpread ex n :: rest, obj, errs, hnd, hdisj => by
      simp only [fieldsToUnits, declaredKeys] at *
      exact drain_field_units_keys env inst resolve rest obj errs hnd hdisj
  | Sel.inlineFragment ex tc pos sels :: rest, obj, errs, hnd, hdisj => by
      simp only [fieldsToUnits, declaredKeys] at *
      exact drain_field_units_keys env inst resolve rest obj errs hnd hdisj

/-- C4 (amended): the pending units are held in an ordered queue and
drained positionally, so the drained sequence — and hence the merged
result — is the same for every completion order; and the keys contributed
by the queued units appear in the declaration order of the selections
that produced them (stated for selection sets of included plain nullable
fields with distinct response keys; the reserved `__typename` meta-field
is excluded because the scan records it into the object ahead of all
queued contributions, see the counterexample). -/
theorem completion_order_and_declaration_order {S : Type} (env : Env S)
    (inst : Instance S)
    (resolve : List Sel → List Err → Except Fatal (Value S × List Err)) :
    (∀ (units : List (Pending S)) (sched : List (Fin units.length)),
        sched.Perm (List.finRange units.length) →
        futuresOrderedOutput units sched = units)
    ∧ (∀ (units : List (Pending S)) (obj : Obj S) (errs : List Err)
        (sched1 sched2 : List (Fin units.length)),
        sched1.Perm (List.finRange units.length) →
        sched2.Perm (List.finRange units.length) →
        drainUnitsWith env inst resolve (futuresOrderedOutput units sched1) obj errs
          = drainUnitsWith env inst resolve (futuresOrderedOutput units sched2) obj errs)
    ∧ (∀ (meta : MetaTypeM) (sels : List Sel) (frl : Nat) (errs : List Err),
        env.concreteTypeByName inst.typeName = some meta →
        (∀ s ∈ sels, isPlainNullableField meta s = true) →
        (declaredKeys sels).Nodup →
        resultKeys (resolveSelectionSet env inst (frl + 1) sels errs)
          = declaredKeys sels) := by
  refine ⟨futuresOrderedOutput_perm, ?_, ?_⟩
  · intro units obj errs sched1 sched2 h1 h2
    rw [futuresOrderedOutput_perm units sched1 h1, futuresOrderedOutput_perm units sched2 h2]
  · intro meta sels frl errs hmeta hplain hnd
    simp only [resolveSelectionSet, hmeta]
    rw [scan_plain_fields env inst meta sels [] [] errs hplain]
    simpa using drain_field_units_keys env inst (resolveSelectionSet env inst frl)
      sels [] errs hnd (by simp)

/-- Counterexample to the literal C4: the claim asserts that for every
selection set the response keys appear in declaration order, but the
`__typename` meta-field is recorded into the object during the scan,
ahead of every queued unit, so declaring it after a plain field still
puts its key first. -/
theorem declaration_order_counterexample :
    declaredKeys [Sel.field false none "a" 0, Sel.field false none "__typename" 1]
      = ["a", "__typename"]
    ∧ resultKeys (resolveSelectionSet envW instW 1
        [Sel.field false none "a" 0, Sel.field false none "__typename" 1] [])
      = ["__typename", "a"]
    ∧ (["__typename", "a"] : List String) ≠ ["a", "__typename"] := by
  refine ⟨rfl, rfl, by decide⟩

/-- Witness for C4 (amended): two queued units drained under the reversed
completion schedule still come out in push order, and a two-field
selection set produces its keys in declaration order. -/
theorem completion_order_and_declaration_order_witness :
    futuresOrderedOutput
        [Pending.fieldUnit (S := String) "a" "a" 0 false, Pending.fieldUnit "c" "c" 1 false]
        [⟨1, by decide⟩, ⟨0, by decide⟩]
      = [Pending.fieldUnit "a" "a" 0 false, Pending.fieldUnit "c" "c" 1 false]
    ∧ resultKeys (resolveSelectionSet envW instW 1
        [Sel.field false none "a" 0, Sel.field false none "c" 1] [])
      = ["a", "c"] := by
  constructor
  · exact (completion_order_and_declaration_order envW instW
        (fun _ _ => .error Fatal.outOfFuel)).1
      [Pending.fieldUnit "a" "a" 0 false, Pending.fieldUnit "c" "c" 1 false]
      [⟨1, by decide⟩, ⟨0, by decide⟩] (by decide)
  · exact (completion_order_and_declaration_order envW instW
        (fun _ _ => .error Fatal.outOfFuel)).2.2
      ⟨"Query", [⟨"a", false⟩, ⟨"b", false⟩, ⟨"c", false⟩, ⟨"n", true⟩]⟩
      [Sel.field false none "a" 0, Sel.field false none "c" 1] 0 []
      rfl (by decide) (by decide)

/-! ## Ownership-delegating wrappers

Embedding of `src/juniper/src/types/pointers.rs`. A trait implementation
is a record of optional method overrides; calling a method dispatches to
the override when present and to the trait's default body otherwise. The
wrapper impls are transcribed from the source: the synchronous
`GraphQLValue` impls for `Box<T>`, `&T` and `Arc<T>` override all four
methods with forwards to the wrapped value; the asynchronous
`GraphQLValueAsync` impls override `resolve_async` for all three wrappers
but `resolve_field_async` only for `&T` — `Box<T>` and `Arc<T>` leave it
to the trait default, which panics. -/

/-- Method dispatch: the implementation's override if supplied, the trait's
default body otherwise. -/
def dispatchMethod {A R : Type} (dflt : A → R) : Option (A → R) → A → R
  | some m, a => m a
  | none, a => dflt a

/-- The async value capability (`GraphQLValueAsync`) as implemented by one
type: optional overrides of `resolve_field_async` and `resolve_async`.
The method arguments (info, field name, arguments, executor) are bundled
into the abstract type `A`. -/
structure AsyncImpl (S A : Type) : Type where
  fieldAsync : Option (A → Except Fatal (Except String (Value S)))
  wholeAsync : Option (A → Except Fatal (Except String (Value S)))

/-- The default body of `resolve_field_async` (from `async_await.rs`): an
unconditional panic, since object types must implement it. -/
def defaultFieldAsync {S A : Type} : A → Except Fatal (Except String (Value S)) :=
  fun _ => .error (Fatal.unimplementedCapability "resolve_field")

/-- `GraphQLValueAsync for Box<T>` (`pointers.rs`): only `resolve_async`
is overridden, forwarding to the wrapped value's dispatched method;
`resolve_field_async` is not listed in the impl. -/
def boxAsync {S A : Type} (dWhole : A → Except Fatal (Except String (Value S)))
    (t : AsyncImpl S A) : AsyncImpl S A :=
  ⟨none, some (dispatchMethod dWhole t.wholeAsync)⟩

/-- `GraphQLValueAsync for &T` (`pointers.rs`): both `resolve_field_async`
and `resolve_async` are overridden with forwards to the wrapped value. -/
def refAsync {S A : Type} (dField dWhole : A → Except Fatal (Except String (Value S)))
    (t : AsyncImpl S A) : AsyncImpl S A :=
  ⟨some (dispatchMethod dField t.fieldAsync), some (dispatchMethod dWhole t.wholeAsync)⟩

/-- `GraphQLValueAsync for Arc<T>` (`pointers.rs`): like the boxed
wrapper, only `resolve_async` is overridden. -/
def arcAsync {S A : Type} (dWhole : A → Except Fatal (Except String (Value S)))
    (t : AsyncImpl S A) : AsyncImpl S A :=
  ⟨none, some (dispatchMethod dWhole t.wholeAsync)⟩

/-- The synchronous value capability (`GraphQLValue`): `type_name`,
`resolve_into_type`, `resolve_field` and `resolve`. -/
structure SyncImpl (S A : Type) : Type where
  typeNameM : Option (A → Option String)
  intoTypeM : Option (A → Except Fatal (Except String (Value S)))
  fieldM : Option (A → Except Fatal (Except String (Value S)))
  resolveM : Option (A → Except Fatal (Except String (Value S)))

/-- `GraphQLValue for Box<T>`: all four methods forward. -/
def boxSync {S A : Type} (dName : A → Option String)
    (dInto dField dResolve : A → Except Fatal (Except String (Value S)))
    (t : SyncImpl S A) : SyncImpl S A :=
  ⟨some (dispatchMethod dName t.typeNameM), some (dispatchMethod dInto t.intoTypeM),
   some (dispatchMethod dField t.fieldM), some (dispatchMethod dResolve t.resolveM)⟩

/-- `GraphQLValue for &T`: all four methods forward. -/
def refSync {S A : Type} (dName : A → Option String)
    (dInto dField dResolve : A → Except Fatal (Except String (Value S)))
    (t : SyncImpl S A) : SyncImpl S A :=
  ⟨some (dispatchMethod dName t.typeNameM), some (dispatchMethod dInto t.intoTypeM),
   some (dispatchMethod dField t.fieldM), some (dispatchMethod dResolve t.resolveM)⟩

/-- `GraphQLValue for Arc<T>`: all four methods forward. -/
def arcSync {S A : Type} (dName : A → Option String)
    (dInto dField dResolve : A → Except Fatal (Except String (Value S)))
    (t : SyncImpl S A) : SyncImpl S A :=
  ⟨some (dispatchMethod dName t.typeNameM), some (dispatchMethod dInto t.intoTypeM),
   some (dispatchMethod dField t.fieldM), some (dispatchMethod dResolve t.resolveM)⟩

/-- The static `GraphQLType` capability: `name` and `meta`. -/
structure TypeImpl : Type where
  nameS : Option String
  metaS : MetaTypeM

/-- `GraphQLType for Box<T>`: `name` and `meta` delegate to `T`. -/
def boxTypeImpl (t : TypeImpl) : TypeImpl := ⟨t.nameS, t.metaS⟩

/-- `GraphQLType for &T`: `name` and `meta` delegate to `T`. -/
def refTypeImpl (t : TypeImpl) : TypeImpl := ⟨t.nameS, t.metaS⟩

/-- `GraphQLType for Arc<T>`: `name` and `meta` delegate to `T`. -/
def arcTypeImpl (t : TypeImpl) : TypeImpl := ⟨t.nameS, t.metaS⟩

/-- A wrapped value that overrides the per-field async resolver with a
successful result. -/
def tFieldOverride : AsyncImpl String Unit :=
  ⟨some (fun _ => .ok (.ok (Value.scalar "x"))), some (fun _ => .ok (.ok Value.null))⟩

/-- Counterexample to the literal C3: calling the per-field async resolver
on the boxed wrapper of a value that implements it returns the trait
default's panic, not what the same method returns on the wrapped value —
`Box<T>` (like `Arc<T>`) forwards only `resolve_async`. -/
theorem wrapper_forwarding_counterexample :
    dispatchMethod defaultFieldAsync
        (boxAsync (dispatchMethod defaultFieldAsync tFieldOverride.wholeAsync)
          tFieldOverride).fieldAsync ()
      ≠ dispatchMethod defaultFieldAsync tFieldOverride.fieldAsync () := by
  simp [dispatchMethod, boxAsync, defaultFieldAsync, tFieldOverride]

/-- C3 (amended): the synchronous capability methods (type name, metadata,
resolve, per-field resolve, downcast resolve) forward unchanged to the
wrapped value through all three ownership wrappers, and so does
whole-value async resolution; per-field async resolution forwards for the
borrowed wrapper only, while the boxed and shared wrappers leave it to
the trait's default body. -/
theorem wrapper_forwarding_amended {S A : Type}
    (dField dWhole dInto dFieldS dResolve : A → Except Fatal (Except String (Value S)))
    (dName : A → Option String)
    (t : AsyncImpl S A) (ts : SyncImpl S A) (tt : TypeImpl) (a : A) :
    (dispatchMethod dField (refAsync dField dWhole t).fieldAsync a
       = dispatchMethod dField t.fieldAsync a)
    ∧ (dispatchMethod dWhole (refAsync dField dWhole t).wholeAsync a
       = dispatchMethod dWhole t.wholeAsync a)
    ∧ (dispatchMethod dWhole (boxAsync dWhole t).wholeAsync a
       = dispatchMethod dWhole t.wholeAsync a)
    ∧ (dispatchMethod dWhole (arcAsync dWhole t).wholeAsync a
       = dispatchMethod dWhole t.wholeAsync a)
    ∧ (dispatchMethod dField (boxAsync dWhole t).fieldAsync a = dField a)
    ∧ (dispatchMethod dField (arcAsync dWhole t).fieldAsync a = dField a)
    ∧ (dispatchMethod dName (boxSync dName dInto dFieldS dResolve ts).typeNameM a
       = dispatchMethod dName ts.typeNameM a)
    ∧ (dispatchMethod dInto (boxSync dName dInto dFieldS dResolve ts).intoTypeM a
       = dispatchMethod dInto ts.intoTypeM a)
    ∧ (dispatchMethod dFieldS (boxSync dName dInto dFieldS dResolve ts).fieldM a
       = dispatchMethod dFieldS ts.fieldM a)
    ∧ (dispatchMethod dResolve (boxSync dName dInto dFieldS dResolve ts).resolveM a
       = dispatchMethod dResolve ts.resolveM a)
    ∧ (dispatchMethod dName (refSync dName dInto dFieldS dResolve ts).typeNameM a
       = dispatchMethod dName ts.typeNameM a)
    ∧ (dispatchMethod dInto (refSync dName dInto dFieldS dResolve ts).intoTypeM a
       = dispatchMethod dInto ts.intoTypeM a)
    ∧ (dispatchMethod dFieldS (refSync dName dInto dFieldS dResolve ts).fieldM a
       = dispatchMethod dFieldS ts.fieldM a)
    ∧ (dispatchMethod dResolve (refSync dName dInto dFieldS dResolve ts).resolveM a
       = dispatchMethod dResolve ts.resolveM a)
    ∧ (dispatchMethod dName (arcSync dName dInto dFieldS dResolve ts).typeNameM a
       = dispatchMethod dName ts.typeNameM a)
    ∧ (dispatchMethod dInto (arcSync dName dInto dFieldS dResolve ts).intoTypeM a
       = dispatchMethod dInto ts.intoTypeM a)
    ∧ (dispatchMethod dFieldS (arcSync dName dInto dFieldS dResolve ts).fieldM a
       = dispatchMethod dFieldS ts.fieldM a)
    ∧ (dispatchMethod dResolve (arcSync dName dInto dFieldS dResolve ts).resolveM a
       = dispatchMethod dResolve ts.resolveM a)
    ∧ (boxTypeImpl tt = tt)
    ∧ (refTypeImpl tt = tt)
    ∧ (arcTypeImpl tt = tt) := by
  exact ⟨rfl, rfl, rfl, rfl, rfl, rfl, rfl, rfl, rfl, rfl, rfl, rfl, rfl, rfl,
    rfl, rfl, rfl, rfl, rfl, rfl, rfl⟩

/-- Witness for C9 at a concrete value: an object with a string field and a
null field renders with quoted key/value, stable separators and braces. -/
theorem display_rendering_spec_witness :
    Value.display renderString (Value.object [("k", Value.scalar "v"), ("n", Value.null)])
      = "\x7b\"k\": \"v\", \"n\": null\x7d" := by
  rw [(display_rendering_spec renderString).2.2.2 [("k", Value.scalar "v"), ("n", Value.null)]]
  simp only [List.map]
  rw [(display_rendering_spec renderString).1]
  rw [(display_rendering_spec renderString).2.1 "v" "v" rfl]
  decide

end Juniper
